import Mathlib

/-!
Verification development for the manifest-annotator tool: a line-oriented
rewriter that adds an annotation key/value pair to the `metadata.annotations`
block of YAML manifest documents in a file.

The repository ships three revisions of the annotator core:
- `RevA`: the entry-parsing merge at the top of `annotator.go` (skip-key aware,
  parses the annotation block into keyed entries, sorts entries by key on
  change);
- `RevB`: the value-reconciling merge at the bottom of `annotator.go`
  (rewrites a mismatched value in place, quoted, no sort, no skip key);
- `LineSort`: the line-sorting merge in the unnamed source file (skip-key
  aware, appends a quoted entry line and sorts the raw block lines).

All three share byte-identical `Run`, `processManifest` and `processMetadata`
scaffolding, so those are embedded once, parametrised by the merge step.

Modelling conventions: the file is a `List String` of newline-stripped lines
(as produced by `readLines` via `bufio.Scanner`); every write into the shared
output `bytes.Buffer` in the Go code appends exactly one full line followed by
a newline, so the buffer is modelled as an ordered `List String` that each
stage appends to.  Go's `sort.Sort` on the annotation comparators is modelled
as a stable insertion sort (`sortLess`): Go uses a plain insertion sort below
its quicksort cutoff, so the model is exact for the small blocks exercised
here and agrees on sortedness and entry multiset in general.
-/

set_option maxRecDepth 4000

/-- Go `strings.HasPrefix s pre`. -/
def goStartsWith (s pre : String) : Bool :=
  List.isPrefixOf pre.toList s.toList

/-- Go `strings.TrimPrefix s pre`: drops `pre` when it is a prefix of `s`. -/
def goTrimLead (s pre : String) : String :=
  if goStartsWith s pre then String.mk (s.toList.drop pre.toList.length) else s

/-- ASCII whitespace, the only whitespace occurring in the manifests handled
here; Go's `unicode.IsSpace` additionally covers exotic Unicode spaces. -/
def isSpaceChar (c : Char) : Bool :=
  c == ' ' || c == '\t' || c == '\n' || c == '\r'

/-- Go `strings.TrimSpace`. -/
def goTrimSpace (s : String) : String :=
  String.mk (((s.toList.dropWhile isSpaceChar).reverse.dropWhile isSpaceChar).reverse)

/-- Split a character list at the first colon: returns the part before it and,
when a colon occurs, the part after it. -/
def breakColon : List Char → List Char × Option (List Char)
  | [] => ([], none)
  | c :: cs =>
    if c == ':' then ([], some cs)
    else
      let r := breakColon cs
      (c :: r.1, r.2)

/-- Go `strings.SplitN(s, ":", 2)`: one element when `s` has no colon,
otherwise the text before the first colon and everything after it. -/
def goSplitN2Colon (s : String) : List String :=
  match breakColon s.toList with
  | (pre, none) => [String.mk pre]
  | (pre, some post) => [String.mk pre, String.mk post]

/-- Go `strings.Trim(s, cutset)` for a single-character cutset. -/
def trimCharEnds (c : Char) (s : String) : String :=
  String.mk (((s.toList.dropWhile (fun x => x == c)).reverse.dropWhile
    (fun x => x == c)).reverse)

/-- The double-quote character (used instead of an escaped literal). -/
def dq : String := String.singleton (Char.ofNat 34)

/-- The backslash character. -/
def bsl : String := String.singleton (Char.ofNat 92)

/-- Escaping of a single character under Go's `%q` string formatting, for the
printable-ASCII-plus-common-escapes values exercised here; full
`strconv.Quote` also escapes other control and non-ASCII characters. -/
def goEscapeChar (c : Char) : String :=
  if c == Char.ofNat 34 then bsl ++ dq
  else if c == Char.ofNat 92 then bsl ++ bsl
  else if c == Char.ofNat 10 then bsl ++ "n"
  else if c == Char.ofNat 9 then bsl ++ "t"
  else if c == Char.ofNat 13 then bsl ++ "r"
  else String.singleton c

/-- Go `fmt` verb `%q` on a string value. -/
def goQuote (s : String) : String :=
  dq ++ String.join (s.toList.map goEscapeChar) ++ dq

/-- The `manifestAnnotator` options record.  The Go field `Annotation` is
named `AnnotationKey` here and `SkipAnnotation` is `SkipAnnotationKey` (the
`RevB` revision has no skip field and ignores it). -/
structure manifestAnnotator where
  AnnotationKey : String
  SkipAnnotationKey : String
  Value : String
  Kind : String
  GroupVersion : String
  Name : String
  Namespace : String
deriving DecidableEq

/-- One parsed annotation entry: its trimmed key and its owning lines (header
line plus any six-space-indented continuation lines).  Go type `annotation`. -/
structure annotationEntry where
  key : String
  lines : List String
deriving DecidableEq

/-- Stable insertion of `x` into `l`: `x` moves past exactly the elements
strictly less than it.  Matches one step of Go's insertion sort. -/
def insertLess {α : Type} (less : α → α → Bool) (x : α) : List α → List α
  | [] => [x]
  | y :: ys => if less y x then y :: insertLess less x ys else x :: y :: ys

/-- Stable insertion sort with a `Less` comparator, modelling Go's
`sort.Sort`: exact for small slices (plain insertion sort below the quicksort
cutoff) and agreeing on sortedness and multiset in general. -/
def sortLess {α : Type} (less : α → α → Bool) : List α → List α
  | [] => []
  | x :: xs => insertLess less x (sortLess less xs)

/-- Lexicographic strict comparison of character lists; on the ASCII data
handled here this is exactly Go's bytewise `<` on strings. -/
def charListLt : List Char → List Char → Bool
  | _, [] => false
  | [], _ :: _ => true
  | x :: xs, y :: ys =>
    if x < y then true
    else if y < x then false
    else charListLt xs ys

/-- Go `<` on strings (lexicographic, bytewise). -/
def strLt (x y : String) : Bool := charListLt x.toList y.toList

/-- Go `annotations.Less`: compares entries by key only. -/
def annotationsLess (x y : annotationEntry) : Bool :=
  strLt x.key y.key

/-- Go `annotations.Sort` (`sort.Sort` with the key comparator). -/
def annotationsSort (as : List annotationEntry) : List annotationEntry :=
  sortLess annotationsLess as

/-- Go `annotations.Includes`: whether some entry has exactly this key. -/
def annotationsIncludes (as : List annotationEntry) (key : String) : Bool :=
  as.any (fun e => e.key == key)

/-- Go `annotations.Write`: emit every entry's lines in order. -/
def annotationsWrite (as : List annotationEntry) : List String :=
  (as.map (fun e => e.lines)).flatten

/-- Go `newAnnotation`: a fresh single-line entry `    <key>: <value>`
(note: the value is NOT quoted in this revision). -/
def newAnnotationEntry (key value : String) : annotationEntry :=
  ⟨key, ["    " ++ key ++ ": " ++ value]⟩

/-- Worker for Go `parseAnnotations`: `cur` is the entry currently being
accumulated.  A six-space-indented line continues `cur`; otherwise a line is
split at its first colon, a colon-free line is skipped, and a parsable line
flushes `cur` and starts a new entry keyed by the trimmed text before the
colon. -/
def parseAnnotationsAux (cur : Option annotationEntry) :
    List String → List annotationEntry
  | [] => cur.toList
  | l :: rest =>
    if goStartsWith l "      " then
      match cur with
      | some c => parseAnnotationsAux (some ⟨c.key, c.lines ++ [l]⟩) rest
      | none => parseAnnotationsAux none rest
    else
      match goSplitN2Colon l with
      | [k, _v] => cur.toList ++ parseAnnotationsAux (some ⟨goTrimSpace k, [l]⟩) rest
      | _ => parseAnnotationsAux cur rest

/-- Go `parseAnnotations`. -/
def parseAnnotations (lines : List String) : List annotationEntry :=
  parseAnnotationsAux none lines

/-- Go `kind`/`apiVersion` extraction loop at the top of `processManifest`:
a single forward pass, the last unindented `kind:`/`apiVersion:` line wins. -/
def scanKindGV : List String → String → String → String × String
  | [], k, g => (k, g)
  | l :: rest, k, g =>
    if goStartsWith l "kind:" then
      scanKindGV rest (goTrimSpace (goTrimLead l "kind:")) g
    else if goStartsWith l "apiVersion:" then
      scanKindGV rest k (goTrimSpace (goTrimLead l "apiVersion:"))
    else scanKindGV rest k g

/-- Go `name`/`namespace` extraction loop at the top of `processMetadata`:
the last two-space-indented `  name:`/`  namespace:` line wins. -/
def scanNameNs : List String → String → String → String × String
  | [], n, ns => (n, ns)
  | l :: rest, n, ns =>
    let n2 := if goStartsWith l "  name:" then goTrimSpace (goTrimLead l "  name:") else n
    let ns2 := if goStartsWith l "  namespace:" then
      goTrimSpace (goTrimLead l "  namespace:") else ns
    scanNameNs rest n2 ns2

/-- Go `skipProcessing` condition in `processMetadata`: some non-empty filter
criterion differs from the corresponding extracted value. -/
def skipProcessing (a : manifestAnnotator) (kind gv nm ns : String) : Bool :=
  (!(a.Kind == "") && !(a.Kind == kind)) ||
  (!(a.GroupVersion == "") && !(a.GroupVersion == gv)) ||
  (!(a.Name == "") && !(a.Name == nm)) ||
  (!(a.Namespace == "") && !(a.Namespace == ns))

/-- The body-collecting scan shared (textually duplicated in Go) by
`processManifest` and `processMetadata`.  State: remaining lines, accumulated
block body `acc` (never reset, exactly as in Go), the `inside` flag, the
`processed` flag and the current `changed` flag.  When `inside` and the line
lacks `bodyPre`, the block collected so far is handed to `proc` (whose output
lines are emitted at that point and whose flag overwrites `changed`); the
closing line is then re-tested against `openPre` and emitted.  Returns the
emitted lines, the final `acc`, `processed` and `changed`. -/
def scanLoop (proc : List String → List String × Bool) (bodyPre openPre : String) :
    List String → List String → Bool → Bool → Bool →
    List String × List String × Bool × Bool
  | [], acc, _inside, processed, chg => ([], acc, processed, chg)
  | l :: rest, acc, inside, processed, chg =>
    if inside then
      if goStartsWith l bodyPre then
        scanLoop proc bodyPre openPre rest (acc ++ [l]) true processed chg
      else
        let m := proc acc
        let r := scanLoop proc bodyPre openPre rest acc (goStartsWith l openPre) true m.2
        (m.1 ++ l :: r.1, r.2)
    else
      let r := scanLoop proc bodyPre openPre rest acc (goStartsWith l openPre) processed chg
      (l :: r.1, r.2)

/-- Go `processMetadata`, parametrised by the annotation-merge step `merge`
(the only part that differs between revisions).  Extracts name/namespace,
passes the block through verbatim with `changed=false` when a filter
mismatches, otherwise scans for the `  annotations:` block; if the collected
block body is empty an `  annotations:` line is synthesized and `changed`
forced true; if no block was processed during the scan the merge runs on the
collected body at the end. -/
def processMetadataWith (merge : List String → List String × Bool)
    (a : manifestAnnotator) (lines : List String) (kind gv : String) :
    List String × Bool :=
  let nn := scanNameNs lines "" ""
  if skipProcessing a kind gv nn.1 nn.2 then (lines, false)
  else
    let r := scanLoop merge "    " "  annotations:" lines [] false false false
    let synthLines : List String := if r.2.1.isEmpty then ["  annotations:"] else []
    let chg1 : Bool := if r.2.1.isEmpty then true else r.2.2.2
    if r.2.2.1 then (r.1 ++ synthLines, chg1)
    else
      let m := merge r.2.1
      (r.1 ++ synthLines ++ m.1, m.2)

/-- Go `processManifest`, parametrised by the metadata step.  Extracts
kind/groupVersion, scans for the `metadata:` block; the final call on the
collected block happens only when the block was not already processed AND is
non-empty (so a trailing bare `metadata:` line is never processed). -/
def processManifestWith (procMeta : List String → String → String → List String × Bool)
    (lines : List String) : List String × Bool :=
  let kg := scanKindGV lines "" ""
  let r := scanLoop (fun ls => procMeta ls kg.1 kg.2) "  " "metadata:" lines [] false false false
  if !r.2.2.1 && !r.2.1.isEmpty then
    let m := procMeta r.2.1 kg.1 kg.2
    (r.1 ++ m.1, m.2)
  else (r.1, r.2.2.2)

/-- Go `Run` body after `readLines`: split at `---` lines, process each
segment (the per-segment changed flags are DISCARDED), emit the separator
lines verbatim, and return the buffer together with the changed flag of the
FINAL segment only, which alone decides whether the file is rewritten. -/
def runModel (procMani : List String → List String × Bool) :
    List String → List String → List String × Bool
  | [], cur => procMani cur
  | l :: rest, cur =>
    if goStartsWith l "---" then
      let m := procMani cur
      let r := runModel procMani rest []
      (m.1 ++ l :: r.1, r.2)
    else runModel procMani rest (cur ++ [l])

namespace RevA

/-- Go `processAnnotations` of the entry-parsing revision: parse the block;
when neither the target key nor the skip key is present, append the new
(unquoted) entry, sort all entries by key and write them with `changed=true`;
otherwise write the parsed entries in original order with `changed=false`. -/
def processAnnotations (a : manifestAnnotator) (lines : List String) :
    List String × Bool :=
  let as := parseAnnotations lines
  if !(annotationsIncludes as a.AnnotationKey) &&
      !(annotationsIncludes as a.SkipAnnotationKey) then
    (annotationsWrite (annotationsSort (as ++ [newAnnotationEntry a.AnnotationKey a.Value])),
      true)
  else (annotationsWrite as, false)

/-- Go `processMetadata` (entry-parsing revision). -/
def processMetadata (a : manifestAnnotator) (lines : List String) (kind gv : String) :
    List String × Bool :=
  processMetadataWith (processAnnotations a) a lines kind gv

/-- Go `processManifest` (entry-parsing revision). -/
def processManifest (a : manifestAnnotator) (lines : List String) : List String × Bool :=
  processManifestWith (fun ls k g => processMetadata a ls k g) lines

/-- Go `Run` on a file already read into lines: returns the output buffer and
whether the file is rewritten. -/
def run (a : manifestAnnotator) (lines : List String) : List String × Bool :=
  runModel (processManifest a) lines []

/-- The file content after one invocation: the buffer when `Run` writes,
otherwise the untouched original lines. -/
def fileAfterRun (a : manifestAnnotator) (lines : List String) : List String :=
  let r := run a lines
  if r.2 then r.1 else lines

end RevA

namespace RevB

/-- The per-line loop of Go `processAnnotations` in the value-reconciling
revision: unparsable lines are written verbatim; a line whose trimmed key
equals the target marks `found` and, when its unquoted trimmed value differs
from the target value, is replaced in place by `    <key>: <quoted value>`
with `changed=true`; every other line is written verbatim.  Returns the
emitted lines and the `found` and `changed` flags. -/
def processAnnotationsLoop (a : manifestAnnotator) :
    List String → Bool → Bool → List String × Bool × Bool
  | [], found, chg => ([], found, chg)
  | l :: rest, found, chg =>
    match goSplitN2Colon l with
    | [k, v] =>
      if goTrimSpace k == a.AnnotationKey then
        if !(trimCharEnds (Char.ofNat 34) (goTrimSpace v) == a.Value) then
          let r := processAnnotationsLoop a rest true true
          (("    " ++ a.AnnotationKey ++ ": " ++ goQuote a.Value) :: r.1, r.2)
        else
          let r := processAnnotationsLoop a rest true chg
          (l :: r.1, r.2)
      else
        let r := processAnnotationsLoop a rest found chg
        (l :: r.1, r.2)
    | _ =>
      let r := processAnnotationsLoop a rest found chg
      (l :: r.1, r.2)

/-- Go `processAnnotations` (value-reconciling revision): run the loop and,
when the target key was never found, append the new quoted entry with
`changed=true`. -/
def processAnnotations (a : manifestAnnotator) (lines : List String) :
    List String × Bool :=
  let r := processAnnotationsLoop a lines false false
  if !r.2.1 then
    (r.1 ++ ["    " ++ a.AnnotationKey ++ ": " ++ goQuote a.Value], true)
  else (r.1, r.2.2)

/-- Go `processMetadata` (value-reconciling revision). -/
def processMetadata (a : manifestAnnotator) (lines : List String) (kind gv : String) :
    List String × Bool :=
  processMetadataWith (processAnnotations a) a lines kind gv

/-- Go `processManifest` (value-reconciling revision). -/
def processManifest (a : manifestAnnotator) (lines : List String) : List String × Bool :=
  processManifestWith (fun ls k g => processMetadata a ls k g) lines

/-- Go `Run` (value-reconciling revision). -/
def run (a : manifestAnnotator) (lines : List String) : List String × Bool :=
  runModel (processManifest a) lines []

end RevB

namespace LineSort

/-- Go `includesAnnotation` of the line-sorting revision: whether some block
line's trimmed text before its first colon equals `key`. -/
def includesAnnotationKey (lines : List String) (key : String) : Bool :=
  lines.any (fun l => goTrimSpace ((goSplitN2Colon l).headD l) == key)

/-- Go `annotationSorter.Less`: split both lines at their first colon; equal
first parts are ordered by the remainder, otherwise by the first parts.  (Go
indexes `parts[1]` unconditionally on equal first parts and would panic when
a colon-free line ties with another; the model reads an empty string there.) -/
def sorterLess (x y : String) : Bool :=
  let px := goSplitN2Colon x
  let py := goSplitN2Colon y
  if px.headD x == py.headD y then strLt (px.getD 1 "") (py.getD 1 "")
  else strLt (px.headD x) (py.headD y)

/-- Go `sortAnnotations` (`sort.Sort` with `annotationSorter` over the raw
block lines). -/
def sortAnnotations (lines : List String) : List String :=
  sortLess sorterLess lines

/-- Go `processAnnotations` of the line-sorting revision: skip when the skip
key occurs among the line keys; otherwise, when the target key is absent,
append `    <key>: <quoted value>` and sort the block lines; the (possibly
extended and sorted) lines are written out. -/
def processAnnotations (a : manifestAnnotator) (lines : List String) :
    List String × Bool :=
  let shouldSkip := includesAnnotationKey lines a.SkipAnnotationKey
  if !shouldSkip && !(includesAnnotationKey lines a.AnnotationKey) then
    (sortAnnotations (lines ++ ["    " ++ a.AnnotationKey ++ ": " ++ goQuote a.Value]),
      true)
  else (lines, false)

/-- Go `processMetadata` (line-sorting revision). -/
def processMetadata (a : manifestAnnotator) (lines : List String) (kind gv : String) :
    List String × Bool :=
  processMetadataWith (processAnnotations a) a lines kind gv

/-- Go `processManifest` (line-sorting revision). -/
def processManifest (a : manifestAnnotator) (lines : List String) : List String × Bool :=
  processManifestWith (fun ls k g => processMetadata a ls k g) lines

/-- Go `Run` (line-sorting revision). -/
def run (a : manifestAnnotator) (lines : List String) : List String × Bool :=
  runModel (processManifest a) lines []

end LineSort

theorem insertLess_perm {α : Type} (less : α → α → Bool) (x : α) :
    ∀ l : List α, List.Perm (insertLess less x l) (x :: l) := by
  intro l
  induction l with
  | nil => simp [insertLess]
  | cons y ys ih =>
    by_cases h : less y x = true
    · have e : insertLess less x (y :: ys) = y :: insertLess less x ys := by
        simp [insertLess, h]
      rw [e]
      exact (List.Perm.cons y ih).trans (List.Perm.swap x y ys)
    · simp [insertLess, h]

theorem sortLess_perm {α : Type} (less : α → α → Bool) :
    ∀ l : List α, List.Perm (sortLess less l) l := by
  intro l
  induction l with
  | nil => simp [sortLess]
  | cons x xs ih =>
    exact (insertLess_perm less x (sortLess less xs)).trans (List.Perm.cons x ih)

theorem insertLess_chain {α : Type} (less : α → α → Bool)
    (hasym : ∀ p q, less p q = true → less q p = false) (x : α) :
    ∀ l : List α, List.Chain' (fun u v => less v u = false) l →
      List.Chain' (fun u v => less v u = false) (insertLess less x l) := by
  intro l
  induction l with
  | nil => intro _; simp [insertLess]
  | cons y ys ih =>
    intro h
    by_cases hyx : less y x = true
    · have hys : List.Chain' (fun u v => less v u = false) ys := h.tail
      have hins := ih hys
      have hrel : ∀ z ∈ (insertLess less x ys).head?, less z y = false := by
        intro z hz
        cases ys with
        | nil =>
          simp [insertLess] at hz
          subst hz
          exact hasym y x hyx
        | cons w ws =>
          by_cases hwx : less w x = true
          · simp [insertLess, hwx] at hz
            subst hz
            exact (List.chain'_cons.mp h).1
          · simp [insertLess, hwx] at hz
            subst hz
            exact hasym y x hyx
      have : insertLess less x (y :: ys) = y :: insertLess less x ys := by
        simp [insertLess, hyx]
      rw [this]
      exact List.chain'_cons'.mpr ⟨hrel, hins⟩
    · have hne : less y x = false := by
        cases hxy2 : less y x
        · rfl
        · exact absurd hxy2 hyx
      have : insertLess less x (y :: ys) = x :: y :: ys := by
        simp [insertLess, hne]
      rw [this]
      exact List.chain'_cons.mpr ⟨hne, h⟩

theorem sortLess_chain {α : Type} (less : α → α → Bool)
    (hasym : ∀ p q, less p q = true → less q p = false) :
    ∀ l : List α, List.Chain' (fun u v => less v u = false) (sortLess less l) := by
  intro l
  induction l with
  | nil => simp [sortLess]
  | cons x xs ih => exact insertLess_chain less hasym x (sortLess less xs) ih

theorem charListLt_asymm :
    ∀ p q : List Char, charListLt p q = true → charListLt q p = false := by
  intro p
  induction p with
  | nil =>
    intro q h
    cases q with
    | nil => simp [charListLt] at h
    | cons c cs => simp [charListLt]
  | cons x xs ih =>
    intro q h
    cases q with
    | nil => simp [charListLt] at h
    | cons y ys =>
      by_cases hxy : x < y
      · have hyx : ¬ y < x := lt_asymm hxy
        simp [charListLt, hxy, hyx]
      · by_cases hyx : y < x
        · simp [charListLt, hxy, hyx] at h
        · simp [charListLt, hxy, hyx] at h ⊢
          exact ih ys h

theorem annotationsLess_asymm (p q : annotationEntry)
    (h : annotationsLess p q = true) : annotationsLess q p = false :=
  charListLt_asymm _ _ h

theorem scanLoop_no_open (proc : List String → List String × Bool)
    (bodyPre openPre : String) :
    ∀ (pre rest acc : List String) (p c : Bool),
      (∀ l ∈ pre, goStartsWith l openPre = false) →
      scanLoop proc bodyPre openPre (pre ++ rest) acc false p c =
        (pre ++ (scanLoop proc bodyPre openPre rest acc false p c).1,
          (scanLoop proc bodyPre openPre rest acc false p c).2) := by
  intro pre
  induction pre with
  | nil => intro rest acc p c _; simp
  | cons l pre ih =>
    intro rest acc p c h
    have hl : goStartsWith l openPre = false := h l (by simp)
    have hrest : ∀ x ∈ pre, goStartsWith x openPre = false := fun x hx => h x (by simp [hx])
    simp only [List.cons_append, scanLoop, Bool.false_eq_true, if_false, hl,
      List.append_eq]
    rw [ih rest acc p c hrest]

theorem breakColon_no_colon :
    ∀ cs : List Char, ':' ∉ cs → breakColon cs = (cs, none) := by
  intro cs
  induction cs with
  | nil => intro _; rfl
  | cons c cs ih =>
    intro h
    have hc : ¬ c = ':' := fun e => h (by simp [e])
    have hcb : (c == ':') = false := by simp [hc]
    simp [breakColon, hcb, ih (fun hm => h (List.mem_cons_of_mem _ hm))]

theorem goSplitN2Colon_no_colon (l : String) (h : ':' ∉ l.toList) :
    goSplitN2Colon l = [l] := by
  have hb : breakColon l.toList = (l.toList, none) := breakColon_no_colon l.toList h
  simp only [goSplitN2Colon, hb]
  rfl

theorem scanLoop_no_open_all (proc : List String → List String × Bool)
    (bodyPre openPre : String) (pre acc : List String) (p c : Bool)
    (h : ∀ l ∈ pre, goStartsWith l openPre = false) :
    scanLoop proc bodyPre openPre pre acc false p c = (pre, acc, p, c) := by
  have := scanLoop_no_open proc bodyPre openPre pre [] acc p c h
  simpa [scanLoop] using this

/-- C10: a document containing no line that begins with `metadata:` is
emitted unchanged by `processManifest` (every line passed through in order)
with `changed=false`, and in particular never gains an annotations block. -/
theorem c10_no_metadata_passthrough (a : manifestAnnotator) (lines : List String)
    (hno : ∀ l ∈ lines, goStartsWith l "metadata:" = false) :
    RevA.processManifest a lines = (lines, false) := by
  simp only [RevA.processManifest, processManifestWith]
  rw [scanLoop_no_open_all _ _ _ lines [] false false hno]
  simp

/-- Witness for C10 at a concrete document without a `metadata:` line. -/
theorem c10_no_metadata_passthrough_witness :
    (∀ l ∈ ["kind: Pod", "  name: x"], goStartsWith l "metadata:" = false) ∧
    RevA.processManifest ⟨"kg", "", "vg", "", "", "", ""⟩ ["kind: Pod", "  name: x"] =
      (["kind: Pod", "  name: x"], false) :=
  ⟨by decide, c10_no_metadata_passthrough ⟨"kg", "", "vg", "", "", "", ""⟩
    ["kind: Pod", "  name: x"] (by decide)⟩

/-- C1: the claim says `Run` overwrites the file iff ANY manifest document
changed.  In the code only the FINAL segment's changed flag is consulted (the
per-separator `processManifest` results are discarded), so here the first
manifest changes (its `processManifest` returns true and the buffer carries
its new annotation) while `Run` still reports no write and the file is left
untouched. -/
theorem c1_run_ignores_nonfinal_changes :
    (RevA.processManifest ⟨"team", "", "x", "", "", "", ""⟩
        ["metadata:", "  name: foo"]).2 = true ∧
    RevA.run ⟨"team", "", "x", "", "", "", ""⟩
        ["metadata:", "  name: foo", "---", "metadata:", "  annotations:", "    team: x"] =
      (["metadata:", "  name: foo", "  annotations:", "    team: x", "---",
        "metadata:", "  annotations:", "    team: x"], false) ∧
    RevA.fileAfterRun ⟨"team", "", "x", "", "", "", ""⟩
        ["metadata:", "  name: foo", "---", "metadata:", "  annotations:", "    team: x"] =
      ["metadata:", "  name: foo", "---", "metadata:", "  annotations:", "    team: x"] :=
  ⟨by decide, by decide, by decide⟩

/-- C2: the claim says a second run with identical arguments is a no-op.  On
a document whose `  annotations:` line has an empty body the first run
synthesizes a duplicate `  annotations:` line, and the second run rewrites
the file again (the entry moves under the first duplicate), so the content
after run 2 differs from the content after run 1. -/
theorem c2_second_run_changes_file :
    RevA.fileAfterRun ⟨"ann", "", "v", "", "", "", ""⟩ ["metadata:", "  annotations:"] =
      ["metadata:", "  annotations:", "  annotations:", "    ann: v"] ∧
    RevA.fileAfterRun ⟨"ann", "", "v", "", "", "", ""⟩
        ["metadata:", "  annotations:", "  annotations:", "    ann: v"] =
      ["metadata:", "  annotations:", "    ann: v", "  annotations:"] ∧
    ["metadata:", "  annotations:", "    ann: v", "  annotations:"] ≠
      ["metadata:", "  annotations:", "  annotations:", "    ann: v"] :=
  ⟨by decide, by decide, by decide⟩

/-- C8: the claim's three-document scenario (only the second matches the
`--name` filter).  The output buffer does preserve documents one and three
verbatim and annotates only the second, but `Run` consults only the final
segment's changed flag, which is false here, so the file is never rewritten
and no document ends up carrying the annotation. -/
theorem c8_multidoc_write_skipped :
    RevA.run ⟨"kf", "", "vf", "", "", "second", ""⟩
        ["metadata:", "  name: first", "---", "metadata:", "  name: second", "---",
          "metadata:", "  name: third"] =
      (["metadata:", "  name: first", "---", "metadata:", "  name: second",
        "  annotations:", "    kf: vf", "---", "metadata:", "  name: third"], false) ∧
    RevA.fileAfterRun ⟨"kf", "", "vf", "", "", "second", ""⟩
        ["metadata:", "  name: first", "---", "metadata:", "  name: second", "---",
          "metadata:", "  name: third"] =
      ["metadata:", "  name: first", "---", "metadata:", "  name: second", "---",
        "metadata:", "  name: third"] :=
  ⟨by decide, by decide⟩

/-- C7 counterexample: when `metadata:` is the last line of the document the
claim demands that metadata processing still runs and synthesizes an
annotations block; in the code the final `processMetadata` call is guarded by
a non-empty collected block, so the document passes through unchanged with
`changed=false` and nothing is synthesized. -/
theorem c7_trailing_metadata_not_processed :
    RevA.processManifest ⟨"ke", "", "ve", "", "", "", ""⟩ ["metadata:"] =
      (["metadata:"], false) := by decide

/-- C7 amended: when `metadata:` is the last line (zero body lines), the
metadata step is skipped entirely: the document is passed through unchanged
with `changed=false` and no `annotations:` line is synthesized. -/
theorem c7_trailing_metadata_passthrough (a : manifestAnnotator) (pre : List String)
    (hno : ∀ l ∈ pre, goStartsWith l "metadata:" = false) :
    RevA.processManifest a (pre ++ ["metadata:"]) = (pre ++ ["metadata:"], false) := by
  have hsw : goStartsWith "metadata:" "metadata:" = true := by decide
  simp only [RevA.processManifest, processManifestWith]
  rw [scanLoop_no_open _ _ _ pre ["metadata:"] [] false false hno]
  simp [scanLoop, hsw]

/-- Witness for C7 amended at a one-line preamble. -/
theorem c7_trailing_metadata_passthrough_witness :
    (∀ l ∈ ["kind: Pod"], goStartsWith l "metadata:" = false) ∧
    RevA.processManifest ⟨"ke", "", "ve", "", "", "", ""⟩ ["kind: Pod", "metadata:"] =
      (["kind: Pod", "metadata:"], false) := by
  refine ⟨by decide, ?_⟩
  have h := c7_trailing_metadata_passthrough ⟨"ke", "", "ve", "", "", "", ""⟩
    ["kind: Pod"] (by decide)
  simpa using h

/-- C6 counterexample: the claim says an `  annotations:` line is synthesized
iff NO such line is found, and that the new entry's value is double-quoted.
Here the document's metadata consists of exactly an `  annotations:` line
(empty body): one IS found, yet a second one is synthesized, and the new
entry is emitted unquoted (`    kd: vd`, not `    kd: "vd"`). -/
theorem c6_synthesis_despite_existing_line :
    goStartsWith "  annotations:" "  annotations:" = true ∧
    RevA.processMetadata ⟨"kd", "", "vd", "", "", "", ""⟩ ["  annotations:"] "" "" =
      (["  annotations:", "  annotations:", "    kd: vd"], true) ∧
    ("    kd: " ++ dq ++ "vd" ++ dq) ∉
      (RevA.processMetadata ⟨"kd", "", "vd", "", "", "", ""⟩ ["  annotations:"] "" "").1 :=
  ⟨by decide, by decide, by decide⟩

/-- C6 amended: for a matching document whose metadata contains no line
beginning with `  annotations:`, an `  annotations:` line is synthesized with
the change flag forced true, placed immediately after the existing metadata
content, and the new entry is emitted UNQUOTED as `    <key>: <value>`.
(Synthesis also fires when an `  annotations:` line exists with an empty
collected body — see the counterexample — so "no line found" is sufficient
but not necessary.) -/
theorem c6_synthesis_when_absent (a : manifestAnnotator) (lines : List String)
    (kind gv : String)
    (hskip : skipProcessing a kind gv (scanNameNs lines "" "").1
      (scanNameNs lines "" "").2 = false)
    (hno : ∀ l ∈ lines, goStartsWith l "  annotations:" = false) :
    RevA.processMetadata a lines kind gv =
      (lines ++ ["  annotations:", "    " ++ a.AnnotationKey ++ ": " ++ a.Value], true) := by
  simp only [RevA.processMetadata, processMetadataWith, hskip]
  rw [scanLoop_no_open_all _ _ _ lines [] false false hno]
  simp [RevA.processAnnotations, parseAnnotations, parseAnnotationsAux,
    annotationsIncludes, annotationsSort, sortLess, insertLess, annotationsWrite,
    newAnnotationEntry]

/-- Witness for C6 amended: the specification example `metadata:\n  name: foo`
with annotation `team`/value `platform` (the entry comes out unquoted). -/
theorem c6_synthesis_when_absent_witness :
    (skipProcessing ⟨"team", "", "platform", "", "", "", ""⟩ "" ""
        (scanNameNs ["  name: foo"] "" "").1 (scanNameNs ["  name: foo"] "" "").2 = false) ∧
    (∀ l ∈ ["  name: foo"], goStartsWith l "  annotations:" = false) ∧
    RevA.processMetadata ⟨"team", "", "platform", "", "", "", ""⟩ ["  name: foo"] "" "" =
      (["  name: foo", "  annotations:", "    team: platform"], true) := by
  refine ⟨by decide, by decide, ?_⟩
  have h := c6_synthesis_when_absent ⟨"team", "", "platform", "", "", "", ""⟩
    ["  name: foo"] "" "" (by decide) (by decide)
  rw [h]
  decide

/-- C3 counterexample: the claim states a document is modified IFF every
non-empty criterion matches.  With no filters configured every criterion
matches vacuously, yet this document (whose annotation block already holds
the target key) is passed through with `changed=false`, so matching does not
imply modification. -/
theorem c3_matched_but_unmodified :
    skipProcessing ⟨"ka", "", "va", "", "", "", ""⟩ "" ""
      (scanNameNs ["  annotations:", "    ka: va"] "" "").1
      (scanNameNs ["  annotations:", "    ka: va"] "" "").2 = false ∧
    RevA.processMetadata ⟨"ka", "", "va", "", "", "", ""⟩
        ["  annotations:", "    ka: va"] "" "" =
      (["  annotations:", "    ka: va"], false) :=
  ⟨by decide, by decide⟩

/-- C3 amended: the filter check gates modification one way only.  When some
non-empty criterion differs from the extracted kind/groupVersion/name/
namespace, the metadata block is passed through verbatim with
`changed=false`; and whenever `processMetadata` reports `changed=true`, every
non-empty criterion equals the corresponding extracted value.  (Matching
alone does not guarantee modification — see the counterexample.) -/
theorem c3_filter_gate (a : manifestAnnotator) (lines : List String) (kind gv : String) :
    (skipProcessing a kind gv (scanNameNs lines "" "").1 (scanNameNs lines "" "").2 = true →
      RevA.processMetadata a lines kind gv = (lines, false)) ∧
    ((RevA.processMetadata a lines kind gv).2 = true →
      (¬ a.Kind = "" → a.Kind = kind) ∧
      (¬ a.GroupVersion = "" → a.GroupVersion = gv) ∧
      (¬ a.Name = "" → a.Name = (scanNameNs lines "" "").1) ∧
      (¬ a.Namespace = "" → a.Namespace = (scanNameNs lines "" "").2)) := by
  have hpass : skipProcessing a kind gv (scanNameNs lines "" "").1
      (scanNameNs lines "" "").2 = true →
      RevA.processMetadata a lines kind gv = (lines, false) := by
    intro h
    simp only [RevA.processMetadata, processMetadataWith, h]
    simp
  refine ⟨hpass, ?_⟩
  intro h
  by_cases hs : skipProcessing a kind gv (scanNameNs lines "" "").1
    (scanNameNs lines "" "").2 = true
  · rw [hpass hs] at h
    simp at h
  · have hs2 : skipProcessing a kind gv (scanNameNs lines "" "").1
        (scanNameNs lines "" "").2 = false := Bool.eq_false_iff.mpr hs
    simp only [skipProcessing, Bool.or_eq_false_iff, Bool.and_eq_false_iff,
      Bool.not_eq_false', Bool.not_eq_true', beq_iff_eq, beq_eq_false_iff_ne] at hs2
    exact ⟨fun hne => hs2.1.1.1.resolve_left hne, fun hne => hs2.1.1.2.resolve_left hne,
      fun hne => hs2.1.2.resolve_left hne, fun hne => hs2.2.resolve_left hne⟩

/-- Witness for C3 amended at a concrete name-filter mismatch. -/
theorem c3_filter_gate_witness :
    skipProcessing ⟨"k3", "", "v3", "", "", "nomatch", ""⟩ "" ""
      (scanNameNs ["  name: other"] "" "").1 (scanNameNs ["  name: other"] "" "").2 = true ∧
    RevA.processMetadata ⟨"k3", "", "v3", "", "", "nomatch", ""⟩ ["  name: other"] "" "" =
      (["  name: other"], false) :=
  ⟨by decide,
    (c3_filter_gate ⟨"k3", "", "v3", "", "", "nomatch", ""⟩ ["  name: other"] "" "").1
      (by decide)⟩

/-- C4 counterexample: the claim says that when the merge reports
`changed=false` the block is written byte-identical to the input.  A
colon-free block line (here `    zz`) is dropped by `parseAnnotations`, so
the unchanged write is not byte-identical. -/
theorem c4_unchanged_not_byte_identical :
    (RevA.processAnnotations ⟨"kb", "", "vb", "", "", "", ""⟩
        ["    zz", "    kb: vb"]).2 = false ∧
    (RevA.processAnnotations ⟨"kb", "", "vb", "", "", "", ""⟩
        ["    zz", "    kb: vb"]).1 ≠ ["    zz", "    kb: vb"] :=
  ⟨by decide, by decide⟩

/-- C4 amended: when the merge reports `changed=true` the emitted lines are
exactly the parsed entries plus the new entry, sorted stably by key alone
(adjacent output keys are in non-decreasing order and the sorted list is a
permutation of those entries; values are not consulted by `annotations.Less`);
when it reports `changed=false` the parsed entries are emitted in their
original relative order — but lines that fail to parse are dropped, so the
output need not be byte-identical to the input block. -/
theorem c4_sorted_when_changed (a : manifestAnnotator) (lines : List String) :
    ((RevA.processAnnotations a lines).2 = true →
      (RevA.processAnnotations a lines).1 =
        annotationsWrite (annotationsSort
          (parseAnnotations lines ++ [newAnnotationEntry a.AnnotationKey a.Value])) ∧
      List.Chain' (fun u v => annotationsLess v u = false)
        (annotationsSort
          (parseAnnotations lines ++ [newAnnotationEntry a.AnnotationKey a.Value])) ∧
      List.Perm
        (annotationsSort
          (parseAnnotations lines ++ [newAnnotationEntry a.AnnotationKey a.Value]))
        (parseAnnotations lines ++ [newAnnotationEntry a.AnnotationKey a.Value])) ∧
    ((RevA.processAnnotations a lines).2 = false →
      (RevA.processAnnotations a lines).1 = annotationsWrite (parseAnnotations lines)) := by
  by_cases hc : (!(annotationsIncludes (parseAnnotations lines) a.AnnotationKey) &&
      !(annotationsIncludes (parseAnnotations lines) a.SkipAnnotationKey)) = true
  · have he : RevA.processAnnotations a lines =
        (annotationsWrite (annotationsSort
          (parseAnnotations lines ++ [newAnnotationEntry a.AnnotationKey a.Value])), true) := by
      simp only [RevA.processAnnotations, hc]
      simp
    rw [he]
    exact ⟨fun _ => ⟨rfl, sortLess_chain annotationsLess annotationsLess_asymm _,
        sortLess_perm annotationsLess _⟩,
      fun hf => by simp at hf⟩
  · have hc2 : (!(annotationsIncludes (parseAnnotations lines) a.AnnotationKey) &&
        !(annotationsIncludes (parseAnnotations lines) a.SkipAnnotationKey)) = false :=
      Bool.eq_false_iff.mpr hc
    have he : RevA.processAnnotations a lines =
        (annotationsWrite (parseAnnotations lines), false) := by
      simp only [RevA.processAnnotations, hc2]
      simp
    rw [he]
    exact ⟨fun ht => by simp at ht, fun _ => rfl⟩

/-- Witness for C4 amended: the specification example — a block `zeta`,
`alpha` gaining key `beta` comes out in the order `alpha`, `beta`, `zeta`. -/
theorem c4_sorted_when_changed_witness :
    (RevA.processAnnotations ⟨"beta", "", "3", "", "", "", ""⟩
        ["    zeta: 1", "    alpha: 2"]).2 = true ∧
    (RevA.processAnnotations ⟨"beta", "", "3", "", "", "", ""⟩
        ["    zeta: 1", "    alpha: 2"]).1 =
      annotationsWrite (annotationsSort (parseAnnotations ["    zeta: 1", "    alpha: 2"] ++
        [newAnnotationEntry "beta" "3"])) ∧
    (RevA.processAnnotations ⟨"beta", "", "3", "", "", "", ""⟩
        ["    zeta: 1", "    alpha: 2"]).1 =
      ["    alpha: 2", "    beta: 3", "    zeta: 1"] :=
  ⟨by decide,
    ((c4_sorted_when_changed ⟨"beta", "", "3", "", "", "", ""⟩
      ["    zeta: 1", "    alpha: 2"]).1 (by decide)).1,
    by decide⟩

/-- C5 counterexample: with the skip key present the merge does return
`changed=false`, but the claim also says the block is written unchanged; a
colon-free line (here `    keep`) is dropped by the entry-parsing merge, so
the written block differs from the input. -/
theorem c5_skip_block_not_verbatim :
    annotationsIncludes (parseAnnotations ["    keep", "    sk: 1"]) "sk" = true ∧
    (RevA.processAnnotations ⟨"kc", "sk", "vc", "", "", "", ""⟩
        ["    keep", "    sk: 1"]).2 = false ∧
    (RevA.processAnnotations ⟨"kc", "sk", "vc", "", "", "", ""⟩
        ["    keep", "    sk: 1"]).1 ≠ ["    keep", "    sk: 1"] :=
  ⟨by decide, by decide, by decide⟩

/-- C5 amended: when the skip key occurs among the block's entry keys the
merge reports `changed=false` regardless of the target key; the line-sorting
revision then writes the block verbatim, while the entry-parsing revision
writes the parsed entries in original order (dropping unparsable lines). -/
theorem c5_skip_semantics (a : manifestAnnotator) (lines : List String) :
    (annotationsIncludes (parseAnnotations lines) a.SkipAnnotationKey = true →
      RevA.processAnnotations a lines = (annotationsWrite (parseAnnotations lines), false)) ∧
    (LineSort.includesAnnotationKey lines a.SkipAnnotationKey = true →
      LineSort.processAnnotations a lines = (lines, false)) := by
  constructor
  · intro h
    simp only [RevA.processAnnotations, h]
    simp
  · intro h
    simp only [LineSort.processAnnotations, h]
    simp

/-- Witness for C5 amended: a block carrying the skip key passes through the
line-sorting merge verbatim with `changed=false`. -/
theorem c5_skip_semantics_witness :
    LineSort.includesAnnotationKey ["    handled: yes"] "handled" = true ∧
    LineSort.processAnnotations ⟨"tgt", "handled", "v", "", "", "", ""⟩
        ["    handled: yes"] = (["    handled: yes"], false) :=
  ⟨by decide,
    (c5_skip_semantics ⟨"tgt", "handled", "v", "", "", "", ""⟩ ["    handled: yes"]).2
      (by decide)⟩

/-- C9 counterexample: the claim says an unparsable (colon-free, indentation
below six spaces) annotation line is preserved as-is in the output; the
entry-parsing merge drops it instead. -/
theorem c9_unparsable_line_dropped :
    (RevA.processAnnotations ⟨"kx", "", "vx", "", "", "", ""⟩
        ["    - note", "    kx: vx"]).1 = ["    kx: vx"] ∧
    "    - note" ∉ (RevA.processAnnotations ⟨"kx", "", "vx", "", "", "", ""⟩
        ["    - note", "    kx: vx"]).1 :=
  ⟨by decide, by decide⟩

/-- C9 amended: a colon-free line indented by fewer than six spaces is
tolerated (parsing is total, never fatal) and never starts a new entry
context — `parseAnnotations` treats the block exactly as if the line were
absent, which also means the entry-parsing merge drops it from its output —
while the value-reconciling merge writes it through verbatim without touching
its `found`/`changed` state. -/
theorem c9_unparsable_line_step (l : String) (h1 : ':' ∉ l.toList)
    (h2 : goStartsWith l "      " = false) :
    (∀ (cur : Option annotationEntry) (rest : List String),
      parseAnnotationsAux cur (l :: rest) = parseAnnotationsAux cur rest) ∧
    (∀ (a : manifestAnnotator) (rest : List String) (found chg : Bool),
      RevB.processAnnotationsLoop a (l :: rest) found chg =
        (l :: (RevB.processAnnotationsLoop a rest found chg).1,
          (RevB.processAnnotationsLoop a rest found chg).2)) := by
  have hsplit : goSplitN2Colon l = [l] := goSplitN2Colon_no_colon l h1
  constructor
  · intro cur rest
    simp only [parseAnnotationsAux, h2, hsplit]
    simp
  · intro a rest found chg
    simp only [RevB.processAnnotationsLoop, hsplit]

/-- Witness for C9 amended at the concrete line `    - note`. -/
theorem c9_unparsable_line_step_witness :
    (':' ∉ "    - note".toList) ∧
    goStartsWith "    - note" "      " = false ∧
    parseAnnotationsAux none ["    - note", "    kz: vz"] =
      parseAnnotationsAux none ["    kz: vz"] ∧
    RevB.processAnnotationsLoop ⟨"kz", "", "vz", "", "", "", ""⟩ ["    - note"] false false =
      (["    - note"], false, false) :=
  ⟨by decide, by decide,
    (c9_unparsable_line_step "    - note" (by decide) (by decide)).1 none ["    kz: vz"],
    by
      have h := (c9_unparsable_line_step "    - note" (by decide) (by decide)).2
        ⟨"kz", "", "vz", "", "", "", ""⟩ [] false false
      rw [h]
      decide⟩
